import Mathlib

/-!
Verification of the color pipeline and UI state logic of the
iced-framebuffer-example application (src/main.rs).

Embedding conventions:
* `f32` arithmetic is embedded as exact rational (`ℚ`) arithmetic; the claims
  are algebraic statements about the formulas the code computes.
* For the single claim about IEEE-754 division by zero, a dedicated small
  model `F32` with `nan` and signed infinities is used, with exact finite
  arithmetic and the IEEE special-value propagation rules.
* The colstodian library calls (perceptual tonemap, AcesCg → EncodedSrgb
  conversion) are third-party code not in the repository; the encoder is
  parameterized over them as opaque color-to-color functions `tm` and `conv`.
* The imperative loops writing flat buffers are embedded as list
  concatenations (`flatMapL`), which reproduce the sequential writes exactly.
-/

namespace IcedApp

/-- Buffer width constant from src/main.rs. -/
def RENDER_BUFFER_WIDTH : ℕ := 1024

/-- Buffer height constant from src/main.rs. -/
def RENDER_BUFFER_HEIGHT : ℕ := 1024

/-- Buffer size constant from src/main.rs. -/
def RENDER_BUFFER_SIZE : ℕ := RENDER_BUFFER_WIDTH * RENDER_BUFFER_HEIGHT * 4

/-- Linear remap of a value in one range into another range (no clamping);
embeds `fit_range` from src/main.rs over exact rationals. -/
def fit_range (x imin imax omin omax : ℚ) : ℚ :=
  (omax - omin) * (x - imin) / (imax - imin) + omin

/-- An RGB color in a working color space (the code uses AcesCg); channel
values are scene-linear floats, embedded as rationals. -/
structure ColorRGB where
  r : ℚ
  g : ℚ
  b : ℚ
deriving DecidableEq

/-- Componentwise linear interpolation between two colors; embeds
colstodian's `Color::blend` (glam lerp: `self + (other - self) * t`). -/
def ColorRGB.blend (c1 c2 : ColorRGB) (t : ℚ) : ColorRGB :=
  ⟨c1.r + (c2.r - c1.r) * t, c1.g + (c2.g - c1.g) * t, c1.b + (c2.b - c1.b) * t⟩

/-- The scene-linear color for loop coordinates `(x, y)` computed by the body
of the nested render loop in `render_bg_image` (src/main.rs lines 40-57). -/
def finalColor (W H x y : ℕ) : ColorRGB :=
  let u := fit_range (x : ℚ) 0 (W : ℚ) 0 1
  let v := fit_range (y : ℚ) 0 (H : ℚ) 0 1
  let red : ColorRGB := ⟨1, 0, 0⟩
  let green : ColorRGB := ⟨0, 1, 0⟩
  let blue : ColorRGB := ⟨0, 0, 1⟩
  let h_blended := red.blend green u
  let v_blended := red.blend blue v
  h_blended.blend v_blended (1 / 2)

/-- The four scene-linear buffer slots (R, G, B, A) written for loop
coordinates `(x, y)`; alpha is the literal 1.0 from the code. -/
def pixelValues (W H x y : ℕ) : List ℚ :=
  [(finalColor W H x y).r, (finalColor W H x y).g, (finalColor W H x y).b, 1]

/-- Concatenation of the lists produced for each element, in order; models a
loop appending blocks of values to a flat buffer. -/
def flatMapL {α β : Type} (f : α → List β) : List α → List β
  | [] => []
  | a :: t => f a ++ flatMapL f t

/-- The scene-linear buffer produced by the nested loop of `render_bg_image`:
`y` runs over `(0..H).rev()`, `x` over `0..W`, and each iteration appends the
four channel values at the running index. -/
def linearRenderBuffer (W H : ℕ) : List ℚ :=
  flatMapL (fun y => flatMapL (fun x => pixelValues W H x y) (List.range W))
    (List.range H).reverse

/-- Chunks of exactly four elements, dropping any remainder; embeds
`chunks_exact(4)` from the encoding loop. -/
def chunksExact4 : List ℚ → List (List ℚ)
  | a :: b :: c :: d :: rest => [a, b, c, d] :: chunksExact4 rest
  | _ => []

/-- Modelled from the spec: colstodian's `Color::to_u8` is not in the
repository; per the spec it quantizes each encoded channel to the nearest
8-bit integer in [0,255]. -/
def to_u8 (x : ℚ) : ℕ :=
  min 255 (Int.toNat ⌊255 * x + 1 / 2⌋)

/-- Rust's saturating `as u8` cast from `f32`: truncation toward zero with
clamping into [0,255]; used for the alpha channel `(255 as f32 * alpha) as u8`. -/
def asU8 (x : ℚ) : ℕ :=
  min 255 (Int.toNat ⌊x⌋)

/-- One iteration of the encoding loop in `render_bg_image` (src/main.rs
lines 75-98): rebuild the AcesCg color from the first three floats of the
chunk, tonemap (`tm`), convert to encoded sRGB (`conv`), quantize the three
color channels with `to_u8`, and quantize alpha by `(255 as f32 * alpha) as u8`.
`tm` and `conv` are the opaque colstodian library functions. -/
def encodePix (tm conv : ColorRGB → ColorRGB) : List ℚ → List ℕ
  | [r, g, b, a] =>
    let tonemapped := tm ⟨r, g, b⟩
    let encoded := conv tonemapped
    [to_u8 encoded.r, to_u8 encoded.g, to_u8 encoded.b, asU8 (255 * a)]
  | _ => []

/-- The scene-linear to display conversion loop: zip over 4-chunks of the
linear buffer, writing one 4-byte pixel per chunk. -/
def encodeBuffer (tm conv : ColorRGB → ColorRGB) (buf : List ℚ) : List ℕ :=
  flatMapL (encodePix tm conv) (chunksExact4 buf)

/-- The full `render_bg_image` pipeline: synthesize the scene-linear buffer,
then encode it to the 8-bit display buffer. -/
def render_bg_image (tm conv : ColorRGB → ColorRGB) : List ℕ :=
  encodeBuffer tm conv (linearRenderBuffer RENDER_BUFFER_WIDTH RENDER_BUFFER_HEIGHT)

/-- The UI messages of the application (src/main.rs lines 11-16). -/
inductive ApplicationMessage where
  | FileNameChanged : String → ApplicationMessage
  | SaveFilePressed : ApplicationMessage
  | RenderPressed : ApplicationMessage
deriving DecidableEq

/-- The application state (src/main.rs lines 18-22); the image handle is
modelled by the byte buffer it holds. -/
structure ApplicationState where
  file_name : String
  file_name_with_ext : String
  rendered_image : List ℕ
deriving DecidableEq

/-- `ApplicationState::new` (src/main.rs lines 106-124): renders the buffer
once and builds the initial state; `format!("{file_name}.exr")` is string
append of the extension. -/
def ApplicationState.new (tm conv : ColorRGB → ColorRGB) : ApplicationState :=
  let file_name := "sample_file"
  { file_name := file_name
    file_name_with_ext := file_name ++ ".exr"
    rendered_image := render_bg_image tm conv }

/-- `ApplicationState::update` (src/main.rs lines 184-199): `RenderPressed`
and `SaveFilePressed` only log to stderr and change nothing;
`FileNameChanged` stores the new name and recomputes the extension. -/
def ApplicationState.update (s : ApplicationState) (m : ApplicationMessage) :
    ApplicationState :=
  match m with
  | .RenderPressed => s
  | .FileNameChanged new_name =>
    { s with file_name := new_name, file_name_with_ext := new_name ++ ".exr" }
  | .SaveFilePressed => s

/-- A small model of IEEE-754 binary32 values: finite values carried exactly
as rationals (rounding and overflow not modelled, zero unsigned), plus the
two infinities (`inf true` is +∞) and `nan`. -/
inductive F32 where
  | fin : ℚ → F32
  | inf : Bool → F32
  | nan : F32
deriving DecidableEq

/-- IEEE subtraction on the `F32` model. -/
def F32.sub : F32 → F32 → F32
  | .nan, _ => .nan
  | _, .nan => .nan
  | .fin a, .fin b => .fin (a - b)
  | .fin _, .inf s => .inf (!s)
  | .inf s, .fin _ => .inf s
  | .inf s, .inf t => if s = t then .nan else .inf s

/-- IEEE multiplication on the `F32` model. -/
def F32.mul : F32 → F32 → F32
  | .nan, _ => .nan
  | _, .nan => .nan
  | .fin a, .fin b => .fin (a * b)
  | .fin a, .inf s => if a = 0 then .nan else .inf ((0 < a) = (s = true))
  | .inf s, .fin b => if b = 0 then .nan else .inf ((0 < b) = (s = true))
  | .inf s, .inf t => .inf (s = t)

/-- IEEE division on the `F32` model; a nonzero finite value divided by
(positive) zero is a signed infinity, zero divided by zero is `nan`. -/
def F32.div : F32 → F32 → F32
  | .nan, _ => .nan
  | _, .nan => .nan
  | .fin a, .fin b =>
    if b = 0 then (if a = 0 then .nan else .inf (0 < a)) else .fin (a / b)
  | .fin _, .inf _ => .fin 0
  | .inf s, .fin b => .inf ((0 ≤ b) = (s = true))
  | .inf _, .inf _ => .nan

/-- IEEE addition on the `F32` model. -/
def F32.add : F32 → F32 → F32
  | .nan, _ => .nan
  | _, .nan => .nan
  | .fin a, .fin b => .fin (a + b)
  | .fin _, .inf s => .inf s
  | .inf s, .fin _ => .inf s
  | .inf s, .inf t => if s = t then .inf s else .nan

/-- Whether an `F32` value is finite (neither an infinity nor `nan`). -/
def F32.isFinite : F32 → Bool
  | .fin _ => true
  | _ => false

/-- `fit_range` from src/main.rs evaluated with the IEEE-flavoured `F32`
model, following the expression tree of the source exactly:
`(omax - omin) * (x - imin) / (imax - imin) + omin`. -/
def fitRangeFp (x imin imax omin omax : F32) : F32 :=
  (((omax.sub omin).mul (x.sub imin)).div (imax.sub imin)).add omin

/-! ## Generic helper lemmas about the buffer embedding -/

theorem flatMapL_nil {α β : Type} (f : α → List β) : flatMapL f [] = [] := rfl

theorem flatMapL_cons {α β : Type} (f : α → List β) (a : α) (t : List α) :
    flatMapL f (a :: t) = f a ++ flatMapL f t := rfl

theorem flatMapL_length_const {α β : Type} (f : α → List β) (L : ℕ) :
    ∀ (l : List α), (∀ a ∈ l, (f a).length = L) →
      (flatMapL f l).length = L * l.length
  | [], _ => by simp [flatMapL]
  | a :: t, h => by
    have ht : ∀ x ∈ t, (f x).length = L := fun x hx => h x (List.mem_cons_of_mem a hx)
    have ha : (f a).length = L := h a (List.mem_cons_self a t)
    simp [flatMapL, flatMapL_length_const f L t ht, ha]
    ring

theorem mem_flatMapL {α β : Type} (f : α → List β) (b : β) :
    ∀ (l : List α), b ∈ flatMapL f l ↔ ∃ a ∈ l, b ∈ f a
  | [] => by simp [flatMapL]
  | a :: t => by
    simp [flatMapL, List.mem_append, mem_flatMapL f b t]

theorem flatMapL_getElem? {α β : Type} (f : α → List β) (L : ℕ)
    (j : ℕ) (hj : j < L) :
    ∀ (l : List α) (i : ℕ), (∀ a ∈ l, (f a).length = L) →
      (flatMapL f l)[L * i + j]? = l[i]?.bind fun a => (f a)[j]?
  | [], i, _ => by simp [flatMapL]
  | a :: t, 0, h => by
    have ha : (f a).length = L := h a (List.mem_cons_self a t)
    rw [flatMapL_cons, Nat.mul_zero, Nat.zero_add,
      List.getElem?_append_left (by omega)]
    simp
  | a :: t, i + 1, h => by
    have ha : (f a).length = L := h a (List.mem_cons_self a t)
    have ht : ∀ x ∈ t, (f x).length = L := fun x hx => h x (List.mem_cons_of_mem a hx)
    have hge : (f a).length ≤ L * (i + 1) + j := by
      rw [ha]; calc L ≤ L * (i + 1) := by nlinarith
        _ ≤ L * (i + 1) + j := Nat.le_add_right _ _
    rw [flatMapL_cons, List.getElem?_append_right hge, ha]
    have harith : L * (i + 1) + j - L = L * i + j := by ring_nf; omega
    rw [harith, flatMapL_getElem? f L j hj t i ht]
    simp

theorem pixelValues_length (W H x y : ℕ) : (pixelValues W H x y).length = 4 := rfl

theorem rangeRev_getElem? (H r : ℕ) (h : r < H) :
    ((List.range H).reverse)[r]? = some (H - 1 - r) := by
  rw [List.getElem?_reverse (by simpa using h), List.length_range,
    List.getElem?_range (by omega)]

theorem row_length (W H y : ℕ) :
    (flatMapL (fun x => pixelValues W H x y) (List.range W)).length = 4 * W := by
  rw [flatMapL_length_const (fun x => pixelValues W H x y) 4 _ (fun a _ => rfl),
    List.length_range]

theorem linearRenderBuffer_getElem? (W H x y c : ℕ) (hx : x < W) (hy : y < H)
    (hc : c < 4) :
    (linearRenderBuffer W H)[4 * ((H - 1 - y) * W + x) + c]? =
      (pixelValues W H x y)[c]? := by
  have hidx : 4 * ((H - 1 - y) * W + x) + c = 4 * W * (H - 1 - y) + (4 * x + c) := by
    ring
  rw [linearRenderBuffer, hidx,
    flatMapL_getElem? _ (4 * W) (4 * x + c) (by omega) _ (H - 1 - y)
      (fun a _ => row_length W H a),
    rangeRev_getElem? H (H - 1 - y) (by omega)]
  have hyy : H - 1 - (H - 1 - y) = y := by omega
  simp only [Option.some_bind, hyy]
  rw [flatMapL_getElem? (fun x => pixelValues W H x y) 4 c hc _ x (fun a _ => rfl),
    List.getElem?_range hx]
  simp only [Option.some_bind]

theorem fit_range_norm (x W : ℕ) :
    fit_range (x : ℚ) 0 (W : ℚ) 0 1 = (x : ℚ) / (W : ℚ) := by
  simp [fit_range]

theorem chunksExact4_cons4 (p q r s : ℚ) (t : List ℚ) :
    chunksExact4 (p :: q :: r :: s :: t) = [p, q, r, s] :: chunksExact4 t := rfl

theorem chunksExact4_append : ∀ (l1 l2 : List ℚ), 4 ∣ l1.length →
    chunksExact4 (l1 ++ l2) = chunksExact4 l1 ++ chunksExact4 l2
  | [], _, _ => rfl
  | a :: b :: c :: d :: t, l2, h => by
    have ht : 4 ∣ t.length := by
      simp only [List.length_cons] at h; omega
    simp [List.cons_append, chunksExact4_cons4, chunksExact4_append t l2 ht]
  | [a], _, h => by simp only [List.length_cons, List.length_nil] at h; omega
  | [a, b], _, h => by simp only [List.length_cons, List.length_nil] at h; omega
  | [a, b, c], _, h => by simp only [List.length_cons, List.length_nil] at h; omega

theorem chunksExact4_flatMapL {α : Type} (g : α → List ℚ) :
    ∀ (l : List α), (∀ a ∈ l, 4 ∣ (g a).length) →
      chunksExact4 (flatMapL g l) = flatMapL (fun a => chunksExact4 (g a)) l
  | [], _ => rfl
  | a :: t, h => by
    have ht := fun x hx => h x (List.mem_cons_of_mem a hx)
    rw [flatMapL_cons, chunksExact4_append _ _ (h a (List.mem_cons_self a t)),
      chunksExact4_flatMapL g t ht, flatMapL_cons]

theorem chunksExact4_of_blocks {α : Type} (f : α → List ℚ) :
    ∀ (l : List α), (∀ a ∈ l, ∃ p q r s, f a = [p, q, r, s]) →
      chunksExact4 (flatMapL f l) = l.map f
  | [], _ => rfl
  | a :: t, h => by
    obtain ⟨p, q, r, s, hfa⟩ := h a (List.mem_cons_self a t)
    have ht := fun x hx => h x (List.mem_cons_of_mem a hx)
    rw [flatMapL_cons, hfa]
    simp only [List.cons_append, List.nil_append, chunksExact4_cons4,
      chunksExact4_of_blocks f t ht, List.map_cons, hfa]

theorem chunksExact4_shape : ∀ (l : List ℚ), ∀ ch ∈ chunksExact4 l,
    ∃ p q r s, ch = [p, q, r, s]
  | [], ch, h => by simp [chunksExact4] at h
  | [a], ch, h => by simp [chunksExact4] at h
  | [a, b], ch, h => by simp [chunksExact4] at h
  | [a, b, c], ch, h => by simp [chunksExact4] at h
  | a :: b :: c :: d :: t, ch, h => by
    rw [chunksExact4_cons4] at h
    rcases List.mem_cons.mp h with h | h
    · exact ⟨a, b, c, d, h⟩
    · exact chunksExact4_shape t ch h

theorem chunks_linearRenderBuffer (W H : ℕ) :
    chunksExact4 (linearRenderBuffer W H) =
      flatMapL (fun y => (List.range W).map (fun x => pixelValues W H x y))
        (List.range H).reverse := by
  rw [linearRenderBuffer,
    chunksExact4_flatMapL _ _ (fun y _ => by rw [row_length]; exact dvd_mul_right 4 W)]
  exact congrArg (fun g => flatMapL g (List.range H).reverse)
    (funext fun y => chunksExact4_of_blocks _ _ (fun x _ => ⟨_, _, _, _, rfl⟩))

theorem chunks_mem (W H : ℕ) (ch : List ℚ)
    (h : ch ∈ chunksExact4 (linearRenderBuffer W H)) :
    ∃ x y, x < W ∧ y < H ∧ ch = pixelValues W H x y := by
  rw [chunks_linearRenderBuffer, mem_flatMapL] at h
  obtain ⟨y, hy, hch⟩ := h
  rw [List.mem_map] at hch
  obtain ⟨x, hx, rfl⟩ := hch
  exact ⟨x, y, List.mem_range.mp hx, List.mem_range.mp (List.mem_reverse.mp hy), rfl⟩

theorem chunks_length (W H : ℕ) :
    (chunksExact4 (linearRenderBuffer W H)).length = W * H := by
  rw [chunks_linearRenderBuffer,
    flatMapL_length_const _ W _ (fun y _ => by simp)]
  simp

theorem render_bg_image_length (tm conv : ColorRGB → ColorRGB) :
    (render_bg_image tm conv).length = RENDER_BUFFER_SIZE := by
  rw [render_bg_image, encodeBuffer,
    flatMapL_length_const _ 4 _ (fun ch hch => by
      obtain ⟨x, y, hx, hy, rfl⟩ := chunks_mem _ _ ch hch; rfl),
    chunks_length]
  norm_num [RENDER_BUFFER_WIDTH, RENDER_BUFFER_HEIGHT, RENDER_BUFFER_SIZE]

theorem pixelValues_y0 (W H x : ℕ) :
    pixelValues W H x 0 =
      [1 - (x : ℚ) / (W : ℚ) / 2, (x : ℚ) / (W : ℚ) / 2, 0, 1] := by
  simp only [pixelValues, finalColor, ColorRGB.blend, fit_range_norm, Nat.cast_zero,
    fit_range]
  norm_num
  constructor <;> ring

/-! ## Claim theorems: fit_range (C2) -/

/-- C2: `fit_range(x, in_min, in_max, out_min, out_max)` computes exactly the
affine remap `(out_max - out_min) * (x - in_min) / (in_max - in_min) + out_min`
with no clamping; for every integer `x` with `0 ≤ x < width`, the normalized
coordinate `fit_range(x, 0, width, 0, 1)` lies in `[0, 1)`, and
`fit_range(0, 0, width, 0, 1)` is exactly `0`. -/
theorem C2_fit_range_contract :
    (∀ x imin imax omin omax : ℚ,
        fit_range x imin imax omin omax =
          (omax - omin) * (x - imin) / (imax - imin) + omin) ∧
    (∀ W x : ℕ, x < W →
        0 ≤ fit_range (x : ℚ) 0 (W : ℚ) 0 1 ∧
        fit_range (x : ℚ) 0 (W : ℚ) 0 1 < 1) ∧
    (∀ W : ℕ, fit_range 0 0 (W : ℚ) 0 1 = 0) := by
  refine ⟨fun _ _ _ _ _ => rfl, fun W x hx => ?_, fun W => by simp [fit_range]⟩
  have hWn : 0 < W := by omega
  have hW : 0 < (W : ℚ) := by exact_mod_cast hWn
  have hxW : (x : ℚ) < (W : ℚ) := by exact_mod_cast hx
  have hx0 : (0 : ℚ) ≤ (x : ℚ) := Nat.cast_nonneg x
  constructor
  · simp only [fit_range, sub_zero, add_zero, one_mul]
    positivity
  · simp only [fit_range, sub_zero, add_zero, one_mul]
    rw [div_lt_one hW]
    exact hxW

/-- Witness for C2 at the concrete input x = 2, width = 4. -/
theorem C2_fit_range_contract_witness :
    (2 : ℕ) < 4 ∧
      (0 ≤ fit_range ((2 : ℕ) : ℚ) 0 ((4 : ℕ) : ℚ) 0 1 ∧
        fit_range ((2 : ℕ) : ℚ) 0 ((4 : ℕ) : ℚ) 0 1 < 1) :=
  ⟨by decide, C2_fit_range_contract.2.1 4 2 (by decide)⟩

/-! ## Claim theorems: IEEE division by zero in fit_range (C5) -/

/-- C5: calling `fit_range` with `in_min == in_max` divides by zero and never
returns a finite value (in the IEEE model the result is `nan` or an
infinity); with `in_min ≠ in_max` and finite inputs the affine-remap
contract holds, so the precondition is exactly what the contract needs. -/
theorem C5_fit_range_div_zero :
    (∀ x i omin omax : ℚ,
        (fitRangeFp (.fin x) (.fin i) (.fin i) (.fin omin) (.fin omax)).isFinite
          = false) ∧
    (∀ x imin imax omin omax : ℚ, imin ≠ imax →
        fitRangeFp (.fin x) (.fin imin) (.fin imax) (.fin omin) (.fin omax) =
          .fin ((omax - omin) * (x - imin) / (imax - imin) + omin)) := by
  constructor
  · intro x i omin omax
    by_cases h : (omax - omin) * (x - i) = 0 <;>
      simp [fitRangeFp, F32.sub, F32.mul, F32.div, F32.add, F32.isFinite, h]
  · intro x imin imax omin omax h
    have h2 : imax - imin ≠ 0 := sub_ne_zero.mpr (Ne.symm h)
    simp [fitRangeFp, F32.sub, F32.mul, F32.div, F32.add, h2]

/-- Witness for C5: division by zero at concrete inputs (3, 1, 1, 0, 10)
is non-finite, and the same call with in_max = 2 is the exact affine remap. -/
theorem C5_fit_range_div_zero_witness :
    (fitRangeFp (.fin 3) (.fin 1) (.fin 1) (.fin 0) (.fin 10)).isFinite = false ∧
    ((1 : ℚ) ≠ 2 ∧
      fitRangeFp (.fin 3) (.fin 1) (.fin 2) (.fin 0) (.fin 10) =
        .fin ((10 - 0) * (3 - 1) / (2 - 1) + 0)) :=
  ⟨C5_fit_range_div_zero.1 3 1 0 10,
    by decide, C5_fit_range_div_zero.2 3 1 2 0 10 (by decide)⟩

/-! ## Claim theorems: encoder determinism (C7) -/

/-- C7: the encoder is deterministic: it is a pure function of the
scene-linear buffer (and the two fixed library color transforms), so any two
runs on equal inputs produce byte-identical display buffers. -/
theorem C7_encoder_deterministic (tm conv : ColorRGB → ColorRGB)
    (buf1 buf2 : List ℚ) (h : buf1 = buf2) :
    encodeBuffer tm conv buf1 = encodeBuffer tm conv buf2 := by
  rw [h]

/-- Witness for C7 at a concrete one-pixel buffer with identity transforms. -/
theorem C7_encoder_deterministic_witness :
    encodeBuffer (fun c => c) (fun c => c) [0, 0, 0, 1] =
      encodeBuffer (fun c => c) (fun c => c) [0, 0, 0, 1] :=
  C7_encoder_deterministic (fun c => c) (fun c => c) [0, 0, 0, 1] [0, 0, 0, 1] rfl

/-! ## Claim theorems: black pixel round trip (C9) -/

/-- C9: a pure black scene-linear pixel (0,0,0) with alpha 1.0 encodes to the
display pixel (0,0,0,255), for any tonemap and any encoding transform that
map black to black (the spec's standing assumption on the perceptual tonemap
and the sRGB encode); alpha quantization maps 1.0 to 255. -/
theorem C9_black_round_trip (tm conv : ColorRGB → ColorRGB)
    (htm : tm ⟨0, 0, 0⟩ = ⟨0, 0, 0⟩) (hconv : conv ⟨0, 0, 0⟩ = ⟨0, 0, 0⟩) :
    encodePix tm conv [0, 0, 0, 1] = [0, 0, 0, 255] := by
  simp only [encodePix, htm, hconv]
  norm_num [to_u8, asU8]

/-- Witness for C9 with the identity transforms, which map black to black. -/
theorem C9_black_round_trip_witness :
    (fun c : ColorRGB => c) ⟨0, 0, 0⟩ = ⟨0, 0, 0⟩ ∧
      encodePix (fun c => c) (fun c => c) [0, 0, 0, 1] = [0, 0, 0, 255] :=
  ⟨rfl, C9_black_round_trip (fun c => c) (fun c => c) rfl rfl⟩

/-! ## Claim theorems: file name invariant (C10) -/

/-- The file-name invariant: the extended name is the base name with the
`.exr` extension appended. -/
def fileNameInvariant (s : ApplicationState) : Prop :=
  s.file_name_with_ext = s.file_name ++ ".exr"

/-- C10: `file_name_with_ext == file_name ++ ".exr"` holds in the state built
by `new()` and is preserved by `update` for every message: `FileNameChanged n`
sets the base name to `n` and the extended name to `n ++ ".exr"`, while
`RenderPressed` and `SaveFilePressed` change neither field. -/
theorem C10_file_name_invariant :
    (∀ tm conv : ColorRGB → ColorRGB, fileNameInvariant (ApplicationState.new tm conv)) ∧
    (∀ (s : ApplicationState) (m : ApplicationMessage),
        fileNameInvariant s → fileNameInvariant (s.update m)) ∧
    (∀ (s : ApplicationState) (n : String),
        (s.update (.FileNameChanged n)).file_name = n ∧
        (s.update (.FileNameChanged n)).file_name_with_ext = n ++ ".exr") ∧
    (∀ s : ApplicationState,
        (s.update .RenderPressed).file_name = s.file_name ∧
        (s.update .RenderPressed).file_name_with_ext = s.file_name_with_ext ∧
        (s.update .SaveFilePressed).file_name = s.file_name ∧
        (s.update .SaveFilePressed).file_name_with_ext = s.file_name_with_ext) := by
  refine ⟨fun tm conv => rfl, fun s m h => ?_, fun s n => ⟨rfl, rfl⟩,
    fun s => ⟨rfl, rfl, rfl, rfl⟩⟩
  cases m with
  | FileNameChanged n => simp [fileNameInvariant, ApplicationState.update]
  | SaveFilePressed => exact h
  | RenderPressed => exact h

/-- Witness for C10: preservation at a concrete state and message. -/
theorem C10_file_name_invariant_witness :
    fileNameInvariant ⟨"a", "a.exr", []⟩ ∧
      fileNameInvariant ((ApplicationState.mk "a" "a.exr" []).update .SaveFilePressed) :=
  ⟨rfl, C10_file_name_invariant.2.1 ⟨"a", "a.exr", []⟩ .SaveFilePressed rfl⟩

/-! ## Claim theorems: the synthesized gradient (C1) -/

/-- C1: for every pixel at loop coordinates (x, y) with 0 ≤ x < width and
0 ≤ y < height, the four scene-linear buffer slots written for that pixel
(at flat base index 4·((height−1−y)·width + x), since y is iterated in
reverse) hold the color obtained by blending pure red toward pure green by
u = x/width, pure red toward pure blue by v = y/height, and those two
results by the fixed factor 1/2, where blending is componentwise linear
interpolation A + t·(B − A) in the working space; the alpha slot is
exactly 1. -/
theorem C1_synthesized_gradient (x y : ℕ)
    (hx : x < RENDER_BUFFER_WIDTH) (hy : y < RENDER_BUFFER_HEIGHT) :
    (linearRenderBuffer RENDER_BUFFER_WIDTH RENDER_BUFFER_HEIGHT)[4 *
        ((RENDER_BUFFER_HEIGHT - 1 - y) * RENDER_BUFFER_WIDTH + x) + 0]? =
      some ((ColorRGB.blend ⟨1, 0, 0⟩ ⟨0, 1, 0⟩
          ((x : ℚ) / (RENDER_BUFFER_WIDTH : ℚ))).blend
        (ColorRGB.blend ⟨1, 0, 0⟩ ⟨0, 0, 1⟩
          ((y : ℚ) / (RENDER_BUFFER_HEIGHT : ℚ))) (1 / 2)).r ∧
    (linearRenderBuffer RENDER_BUFFER_WIDTH RENDER_BUFFER_HEIGHT)[4 *
        ((RENDER_BUFFER_HEIGHT - 1 - y) * RENDER_BUFFER_WIDTH + x) + 1]? =
      some ((ColorRGB.blend ⟨1, 0, 0⟩ ⟨0, 1, 0⟩
          ((x : ℚ) / (RENDER_BUFFER_WIDTH : ℚ))).blend
        (ColorRGB.blend ⟨1, 0, 0⟩ ⟨0, 0, 1⟩
          ((y : ℚ) / (RENDER_BUFFER_HEIGHT : ℚ))) (1 / 2)).g ∧
    (linearRenderBuffer RENDER_BUFFER_WIDTH RENDER_BUFFER_HEIGHT)[4 *
        ((RENDER_BUFFER_HEIGHT - 1 - y) * RENDER_BUFFER_WIDTH + x) + 2]? =
      some ((ColorRGB.blend ⟨1, 0, 0⟩ ⟨0, 1, 0⟩
          ((x : ℚ) / (RENDER_BUFFER_WIDTH : ℚ))).blend
        (ColorRGB.blend ⟨1, 0, 0⟩ ⟨0, 0, 1⟩
          ((y : ℚ) / (RENDER_BUFFER_HEIGHT : ℚ))) (1 / 2)).b ∧
    (linearRenderBuffer RENDER_BUFFER_WIDTH RENDER_BUFFER_HEIGHT)[4 *
        ((RENDER_BUFFER_HEIGHT - 1 - y) * RENDER_BUFFER_WIDTH + x) + 3]? =
      some 1 := by
  refine ⟨?_, ?_, ?_, ?_⟩ <;>
  · rw [linearRenderBuffer_getElem? RENDER_BUFFER_WIDTH RENDER_BUFFER_HEIGHT x y _
      hx hy (by omega)]
    simp [pixelValues, finalColor, fit_range_norm]

/-- Witness for C1 at the concrete pixel (x, y) = (3, 5). -/
theorem C1_synthesized_gradient_witness :
    3 < RENDER_BUFFER_WIDTH ∧ 5 < RENDER_BUFFER_HEIGHT ∧
    ((linearRenderBuffer RENDER_BUFFER_WIDTH RENDER_BUFFER_HEIGHT)[4 *
        ((RENDER_BUFFER_HEIGHT - 1 - 5) * RENDER_BUFFER_WIDTH + 3) + 0]? =
      some ((ColorRGB.blend ⟨1, 0, 0⟩ ⟨0, 1, 0⟩
          (((3 : ℕ) : ℚ) / (RENDER_BUFFER_WIDTH : ℚ))).blend
        (ColorRGB.blend ⟨1, 0, 0⟩ ⟨0, 0, 1⟩
          (((5 : ℕ) : ℚ) / (RENDER_BUFFER_HEIGHT : ℚ))) (1 / 2)).r ∧
    (linearRenderBuffer RENDER_BUFFER_WIDTH RENDER_BUFFER_HEIGHT)[4 *
        ((RENDER_BUFFER_HEIGHT - 1 - 5) * RENDER_BUFFER_WIDTH + 3) + 1]? =
      some ((ColorRGB.blend ⟨1, 0, 0⟩ ⟨0, 1, 0⟩
          (((3 : ℕ) : ℚ) / (RENDER_BUFFER_WIDTH : ℚ))).blend
        (ColorRGB.blend ⟨1, 0, 0⟩ ⟨0, 0, 1⟩
          (((5 : ℕ) : ℚ) / (RENDER_BUFFER_HEIGHT : ℚ))) (1 / 2)).g ∧
    (linearRenderBuffer RENDER_BUFFER_WIDTH RENDER_BUFFER_HEIGHT)[4 *
        ((RENDER_BUFFER_HEIGHT - 1 - 5) * RENDER_BUFFER_WIDTH + 3) + 2]? =
      some ((ColorRGB.blend ⟨1, 0, 0⟩ ⟨0, 1, 0⟩
          (((3 : ℕ) : ℚ) / (RENDER_BUFFER_WIDTH : ℚ))).blend
        (ColorRGB.blend ⟨1, 0, 0⟩ ⟨0, 0, 1⟩
          (((5 : ℕ) : ℚ) / (RENDER_BUFFER_HEIGHT : ℚ))) (1 / 2)).b ∧
    (linearRenderBuffer RENDER_BUFFER_WIDTH RENDER_BUFFER_HEIGHT)[4 *
        ((RENDER_BUFFER_HEIGHT - 1 - 5) * RENDER_BUFFER_WIDTH + 3) + 3]? =
      some 1) :=
  ⟨by decide, by decide, C1_synthesized_gradient 3 5 (by decide) (by decide)⟩

/-! ## Claim theorems: corner pixels (C3) -/

/-- C3: in the output buffer (row 0 is the first row written, the top), the
pixel in the last row (output coordinates x = 0, y = height − 1, which the
loop reaches with its reversed y = 0, i.e. u = 0 and v = 0) is exactly pure
red (1, 0, 0); the pixel at output coordinates (width − 1, height − 1), with
u = (width−1)/width ≈ 1 and v = 0, has the exact blend-formula color
(1 − u/2, u/2, 0), whose red and green channels are within 1/(2·width)
of 0.5 and whose blue channel is 0. -/
theorem C3_corner_pixels (W H : ℕ) (hW : 0 < W) (hH : 0 < H) :
    ((linearRenderBuffer W H)[4 * ((H - 1) * W + 0) + 0]? = some 1 ∧
     (linearRenderBuffer W H)[4 * ((H - 1) * W + 0) + 1]? = some 0 ∧
     (linearRenderBuffer W H)[4 * ((H - 1) * W + 0) + 2]? = some 0 ∧
     (linearRenderBuffer W H)[4 * ((H - 1) * W + 0) + 3]? = some 1) ∧
    ((linearRenderBuffer W H)[4 * ((H - 1) * W + (W - 1)) + 0]? =
        some (1 - ((W - 1 : ℕ) : ℚ) / (W : ℚ) / 2) ∧
     (linearRenderBuffer W H)[4 * ((H - 1) * W + (W - 1)) + 1]? =
        some (((W - 1 : ℕ) : ℚ) / (W : ℚ) / 2) ∧
     (linearRenderBuffer W H)[4 * ((H - 1) * W + (W - 1)) + 2]? = some 0 ∧
     |1 - ((W - 1 : ℕ) : ℚ) / (W : ℚ) / 2 - 1 / 2| ≤ 1 / (2 * (W : ℚ)) ∧
     |((W - 1 : ℕ) : ℚ) / (W : ℚ) / 2 - 1 / 2| ≤ 1 / (2 * (W : ℚ))) := by
  have hWq : (0 : ℚ) < (W : ℚ) := by exact_mod_cast hW
  have hne : (W : ℚ) ≠ 0 := hWq.ne'
  have hcast : ((W - 1 : ℕ) : ℚ) = (W : ℚ) - 1 := by
    rw [Nat.cast_sub hW, Nat.cast_one]
  have hget : ∀ x c : ℕ, x < W → c < 4 →
      (linearRenderBuffer W H)[4 * ((H - 1) * W + x) + c]? =
        (pixelValues W H x 0)[c]? := by
    intro x c hx hc
    have h0 := linearRenderBuffer_getElem? W H x 0 c hx hH hc
    rwa [Nat.sub_zero] at h0
  have e1 : 1 - ((W : ℚ) - 1) / (W : ℚ) / 2 - 1 / 2 = 1 / (2 * (W : ℚ)) := by
    field_simp
    ring
  have e2 : ((W : ℚ) - 1) / (W : ℚ) / 2 - 1 / 2 = -(1 / (2 * (W : ℚ))) := by
    field_simp
    ring
  refine ⟨⟨?_, ?_, ?_, ?_⟩, ?_, ?_, ?_, ?_, ?_⟩
  · rw [hget 0 0 hW (by omega), pixelValues_y0]; norm_num
  · rw [hget 0 1 hW (by omega), pixelValues_y0]; norm_num
  · rw [hget 0 2 hW (by omega), pixelValues_y0]; norm_num
  · rw [hget 0 3 hW (by omega), pixelValues_y0]; norm_num
  · rw [hget (W - 1) 0 (by omega) (by omega), pixelValues_y0]; norm_num
  · rw [hget (W - 1) 1 (by omega) (by omega), pixelValues_y0]; norm_num
  · rw [hget (W - 1) 2 (by omega) (by omega), pixelValues_y0]; norm_num
  · rw [hcast, e1, abs_of_nonneg (by positivity)]
  · rw [hcast, e2, abs_neg, abs_of_nonneg (by positivity)]

/-- Witness for C3 at the actual buffer dimensions 1024 × 1024. -/
theorem C3_corner_pixels_witness :
    0 < RENDER_BUFFER_WIDTH ∧ 0 < RENDER_BUFFER_HEIGHT ∧
    (((linearRenderBuffer RENDER_BUFFER_WIDTH RENDER_BUFFER_HEIGHT)[4 *
          ((RENDER_BUFFER_HEIGHT - 1) * RENDER_BUFFER_WIDTH + 0) + 0]? = some 1 ∧
      (linearRenderBuffer RENDER_BUFFER_WIDTH RENDER_BUFFER_HEIGHT)[4 *
          ((RENDER_BUFFER_HEIGHT - 1) * RENDER_BUFFER_WIDTH + 0) + 1]? = some 0 ∧
      (linearRenderBuffer RENDER_BUFFER_WIDTH RENDER_BUFFER_HEIGHT)[4 *
          ((RENDER_BUFFER_HEIGHT - 1) * RENDER_BUFFER_WIDTH + 0) + 2]? = some 0 ∧
      (linearRenderBuffer RENDER_BUFFER_WIDTH RENDER_BUFFER_HEIGHT)[4 *
          ((RENDER_BUFFER_HEIGHT - 1) * RENDER_BUFFER_WIDTH + 0) + 3]? = some 1) ∧
     ((linearRenderBuffer RENDER_BUFFER_WIDTH RENDER_BUFFER_HEIGHT)[4 *
          ((RENDER_BUFFER_HEIGHT - 1) * RENDER_BUFFER_WIDTH +
            (RENDER_BUFFER_WIDTH - 1)) + 0]? =
        some (1 - ((RENDER_BUFFER_WIDTH - 1 : ℕ) : ℚ) / (RENDER_BUFFER_WIDTH : ℚ) / 2) ∧
      (linearRenderBuffer RENDER_BUFFER_WIDTH RENDER_BUFFER_HEIGHT)[4 *
          ((RENDER_BUFFER_HEIGHT - 1) * RENDER_BUFFER_WIDTH +
            (RENDER_BUFFER_WIDTH - 1)) + 1]? =
        some (((RENDER_BUFFER_WIDTH - 1 : ℕ) : ℚ) / (RENDER_BUFFER_WIDTH : ℚ) / 2) ∧
      (linearRenderBuffer RENDER_BUFFER_WIDTH RENDER_BUFFER_HEIGHT)[4 *
          ((RENDER_BUFFER_HEIGHT - 1) * RENDER_BUFFER_WIDTH +
            (RENDER_BUFFER_WIDTH - 1)) + 2]? = some 0 ∧
      |1 - ((RENDER_BUFFER_WIDTH - 1 : ℕ) : ℚ) / (RENDER_BUFFER_WIDTH : ℚ) / 2 - 1 / 2| ≤
        1 / (2 * (RENDER_BUFFER_WIDTH : ℚ)) ∧
      |((RENDER_BUFFER_WIDTH - 1 : ℕ) : ℚ) / (RENDER_BUFFER_WIDTH : ℚ) / 2 - 1 / 2| ≤
        1 / (2 * (RENDER_BUFFER_WIDTH : ℚ)))) :=
  ⟨by decide, by decide,
    C3_corner_pixels RENDER_BUFFER_WIDTH RENDER_BUFFER_HEIGHT (by decide) (by decide)⟩

/-! ## Claim theorems: alpha quantization (C4) -/

/-- C4: the encoder quantizes the alpha channel by multiplying the linear
alpha value by 255 and truncating (not rounding) to a saturated 8-bit
integer; since every synthesized pixel's alpha is exactly 1, every pixel of
the encoded display buffer has alpha byte 255, for any tonemap and encoding
transform. -/
theorem C4_alpha_255 (tm conv : ColorRGB → ColorRGB) :
    (∀ p q r a : ℚ,
        (encodePix tm conv [p, q, r, a])[3]? =
          some (min 255 (Int.toNat ⌊255 * a⌋))) ∧
    (∀ i : ℕ, i < RENDER_BUFFER_WIDTH * RENDER_BUFFER_HEIGHT →
        (render_bg_image tm conv)[4 * i + 3]? = some 255) := by
  constructor
  · intro p q r a
    rfl
  · intro i hi
    rw [render_bg_image, encodeBuffer]
    have hlen : ∀ ch ∈ chunksExact4
        (linearRenderBuffer RENDER_BUFFER_WIDTH RENDER_BUFFER_HEIGHT),
        (encodePix tm conv ch).length = 4 := by
      intro ch hch
      obtain ⟨x, y, hx, hy, rfl⟩ := chunks_mem _ _ ch hch
      rfl
    rw [flatMapL_getElem? (encodePix tm conv) 4 3 (by omega) _ i hlen]
    have hi2 : i < (chunksExact4
        (linearRenderBuffer RENDER_BUFFER_WIDTH RENDER_BUFFER_HEIGHT)).length := by
      rw [chunks_length]
      exact hi
    rw [List.getElem?_eq_getElem hi2]
    obtain ⟨x, y, hx, hy, hch⟩ := chunks_mem _ _ _ (List.getElem_mem hi2)
    rw [Option.some_bind, hch]
    norm_num [encodePix, pixelValues, asU8]

/-- Witness for C4 at the first pixel of the encoded buffer, with identity
transforms. -/
theorem C4_alpha_255_witness :
    0 < RENDER_BUFFER_WIDTH * RENDER_BUFFER_HEIGHT ∧
      (render_bg_image (fun c => c) (fun c => c))[4 * 0 + 3]? = some 255 :=
  ⟨by decide, (C4_alpha_255 (fun c => c) (fun c => c)).2 0 (by decide)⟩

/-! ## Claim theorems: pointwise encoding (C8) -/

/-- C8: the scene-linear to display transform is pointwise: display pixel i
is a function of scene-linear pixel i alone, so if two scene-linear buffers
agree on chunk i (whatever they hold elsewhere), the encoded outputs agree
on all four bytes of display pixel i. -/
theorem C8_pointwise_encoding (tm conv : ColorRGB → ColorRGB) (b1 b2 : List ℚ)
    (i : ℕ) (ch : List ℚ) (h1 : (chunksExact4 b1)[i]? = some ch)
    (h2 : (chunksExact4 b2)[i]? = some ch) (j : ℕ) (hj : j < 4) :
    (encodeBuffer tm conv b1)[4 * i + j]? =
      (encodeBuffer tm conv b2)[4 * i + j]? := by
  have hlen : ∀ (l : List ℚ), ∀ c ∈ chunksExact4 l,
      (encodePix tm conv c).length = 4 := by
    intro l c hc
    obtain ⟨p, q, r, s, rfl⟩ := chunksExact4_shape l c hc
    rfl
  rw [encodeBuffer, encodeBuffer,
    flatMapL_getElem? (encodePix tm conv) 4 j hj _ i (hlen b1),
    flatMapL_getElem? (encodePix tm conv) 4 j hj _ i (hlen b2), h1, h2]

/-- Witness for C8: two buffers sharing pixel 0 but differing in length and
content elsewhere encode pixel 0 to the same bytes. -/
theorem C8_pointwise_encoding_witness :
    (chunksExact4 [0, 0, 0, 1])[0]? = some [0, 0, 0, 1] ∧
    (chunksExact4 [0, 0, 0, 1, 5, 5, 5, 5])[0]? = some [0, 0, 0, 1] ∧
    (encodeBuffer (fun c => c) (fun c => c) [0, 0, 0, 1])[4 * 0 + 2]? =
      (encodeBuffer (fun c => c) (fun c => c) [0, 0, 0, 1, 5, 5, 5, 5])[4 * 0 + 2]? :=
  ⟨rfl, rfl,
    C8_pointwise_encoding (fun c => c) (fun c => c) [0, 0, 0, 1]
      [0, 0, 0, 1, 5, 5, 5, 5] 0 [0, 0, 0, 1] rfl rfl 2 (by decide)⟩

/-! ## Claim theorems: the Render button (C6) -/

/-- C6 counterexample: processing `RenderPressed` in `update` does not
trigger any synthesis or encoding and does not replace the displayed frame
buffer: at a concrete state whose buffer is empty, `update` returns the
state unchanged, with its empty buffer, while any actual render output has
positive length (so the displayed buffer cannot have been replaced by one). -/
theorem C6_render_pressed_counterexample :
    ApplicationState.update ⟨"sample_file", "sample_file.exr", []⟩ .RenderPressed =
      ⟨"sample_file", "sample_file.exr", []⟩ ∧
    (ApplicationState.update ⟨"sample_file", "sample_file.exr", []⟩
        .RenderPressed).rendered_image.length = 0 ∧
    0 < (render_bg_image (fun c => c) (fun c => c)).length := by
  refine ⟨rfl, rfl, ?_⟩
  rw [render_bg_image_length]
  norm_num [RENDER_BUFFER_SIZE, RENDER_BUFFER_WIDTH, RENDER_BUFFER_HEIGHT]

/-- C6 amended: pressing Render is a stub: processing `RenderPressed` in
`update` leaves the application state (including the displayed frame buffer)
unchanged and only logs; image synthesis and encoding instead run to
completion, synchronously, inside `ApplicationState::new` at startup, whose
resulting display buffer is the one the application holds. -/
theorem C6_render_is_stub :
    (∀ s : ApplicationState, s.update .RenderPressed = s) ∧
    (∀ tm conv : ColorRGB → ColorRGB,
        (ApplicationState.new tm conv).rendered_image = render_bg_image tm conv) ∧
    (∀ tm conv : ColorRGB → ColorRGB,
        render_bg_image tm conv =
          encodeBuffer tm conv
            (linearRenderBuffer RENDER_BUFFER_WIDTH RENDER_BUFFER_HEIGHT)) :=
  ⟨fun s => rfl, fun tm conv => by simp only [ApplicationState.new],
    fun tm conv => by rw [render_bg_image]⟩

end IcedApp
